import Mathlib

/-
Verification development for the row-validation and batch-write pipeline of
an AWS Lambda S3-trigger handler (src/handler.ts).  The handler fetches an
Excel file from S3, decodes its first sheet into rows, validates each row,
converts the valid rows into DynamoDB put requests and writes them in
batches of at most 25, logging diagnostics along the way.

The embedding models JavaScript scalar values (string / number / boolean /
null / undefined) explicitly, since the validation logic depends on JS
truthiness and typeof checks.  Numbers are modelled as integers (the
spreadsheet values relevant here); NaN is not modelled.
-/

namespace S3Lambda

/-- A JavaScript scalar value as it can appear in a decoded spreadsheet
cell: a string, a number, a boolean, null, or undefined. -/
inductive JSVal where
  | vStr (s : String)
  | vNum (n : Int)
  | vBool (b : Bool)
  | vNull
  | vUndefined
deriving DecidableEq

/-- JS truthiness: empty string, 0, false, null and undefined are falsy. -/
def JSVal.truthy : JSVal → Bool
  | .vStr s => !(s == "")
  | .vNum n => !(n == 0)
  | .vBool b => b
  | .vNull => false
  | .vUndefined => false

/-- JS `typeof` of a value (typeof null is "object"). -/
def JSVal.typeOf : JSVal → String
  | .vStr _ => "string"
  | .vNum _ => "number"
  | .vBool _ => "boolean"
  | .vNull => "object"
  | .vUndefined => "undefined"

/-- JS string coercion `String(v)`, also used by `RegExp.test` on a
non-string argument. -/
def JSVal.toStr : JSVal → String
  | .vStr s => s
  | .vNum n => toString n
  | .vBool b => if b then "true" else "false"
  | .vNull => "null"
  | .vUndefined => "undefined"

/-- One decoded spreadsheet row: `XLSX.utils.sheet_to_json` with header
`[userId, name, email, profileImageUrl]` produces an object whose
properties are the cells that are present; `none` models an absent
property. -/
structure RawRow where
  userId : Option JSVal
  name : Option JSVal
  email : Option JSVal
  profileImageUrl : Option JSVal
deriving DecidableEq

/-- JS property access on a possibly-absent property: absent reads as
undefined. -/
def jsGet (field : Option JSVal) : JSVal := field.getD .vUndefined

/-- JS `Object.values(row)`: the values of the properties that are present. -/
def rowValues (row : RawRow) : List JSVal :=
  [row.userId, row.name, row.email, row.profileImageUrl].filterMap id

/-- The per-value test in `isRowEmpty`:
`val === null || val === undefined || val === ""`. -/
def isEmptyCell (v : JSVal) : Bool :=
  v == .vNull || v == .vUndefined || v == .vStr ""

/-- src/handler.ts lines 28-32.  (The `!row` disjunct cannot fire in this
embedding because rows decoded from the sheet are always objects.)  Note
that a row with no present properties is empty: `every` on `[]` is true. -/
def isRowEmpty (row : RawRow) : Bool := (rowValues row).all isEmptyCell

/-- The character class `[^\s@]` of the email regex: not whitespace and
not an at sign. -/
def nsna (c : Char) : Bool := !c.isWhitespace && !(c == '@')

/-- The character class `[^\s]`. -/
def nonSpace (c : Char) : Bool := !c.isWhitespace

/-- Matcher for the regex fragment `(B*)\.(T+)` given that one leading `B`
character has already been consumed by `domMatch`; `B = [^\s@]` and `T` is
the class `tailOk`.  At each position it either takes the current dot as
the literal dot of the regex or extends the `B+` part. -/
def domAux (tailOk : Char → Bool) : List Char → Bool
  | [] => false
  | c :: rest =>
    (c == '.' && !rest.isEmpty && rest.all tailOk) || (nsna c && domAux tailOk rest)

/-- Matcher for the regex fragment `[^\s@]+\.(T+)` (the part after `@`). -/
def domMatch (tailOk : Char → Bool) : List Char → Bool
  | [] => false
  | c :: rest => nsna c && domAux tailOk rest

/-- Matcher for `(A*)@[^\s@]+\.(T+)` given one consumed leading `A`
character, `A = [^\s@]`. -/
def emailAux (tailOk : Char → Bool) : List Char → Bool
  | [] => false
  | c :: rest =>
    (c == '@' && domMatch tailOk rest) || (nsna c && emailAux tailOk rest)

/-- Matcher for the anchored pattern `^[^\s@]+@[^\s@]+\.(T+)$` where `T`
is the class of the final segment. -/
def emailMatch (tailOk : Char → Bool) : List Char → Bool
  | [] => false
  | c :: rest => nsna c && emailAux tailOk rest

/-- src/handler.ts lines 23-24: `/^[^\s@]+@[^\s@]+\.[^\s@]+$/.test(email)`.
The final segment class is `[^\s@]`. -/
def isValidEmail (email : String) : Bool := emailMatch nsna email.data

/-- Modelled from the spec: the pattern the spec describes for emails,
"one or more non-space non-at characters, at sign, one or more non-space
non-at characters, dot, one or more non-space characters".  It differs
from the code regex in the class of the final segment (`[^\s]` rather
than `[^\s@]`). -/
def specEmailAccept (email : String) : Bool := emailMatch nonSpace email.data

/-- The `[^\s]+` tail of the URL regex. -/
def urlTailOk (tail : List Char) : Bool := !tail.isEmpty && tail.all nonSpace

/-- src/handler.ts line 26: `/^(https?:\/\/[^\s]+)$/.test(url)`. -/
def isValidUrl (url : String) : Bool :=
  (url.data.take 7 == "http://".data && urlTailOk (url.data.drop 7)) ||
  (url.data.take 8 == "https://".data && urlTailOk (url.data.drop 8))

/-- The single-quote character as a string (used inside error messages). -/
def sq : String := "\x27"

def emptyReason : String := "Empty row"

def userIdReason : String := "Missing or invalid " ++ sq ++ "userId" ++ sq

def nameReason : String := "Missing or invalid " ++ sq ++ "name" ++ sq

def emailReason : String := "Invalid " ++ sq ++ "email" ++ sq

def urlReason : String := "Invalid " ++ sq ++ "profileImageUrl" ++ sq

/-- The error message format `Row (index+2): (reason)` of validateUser. -/
def rowMsg (index : Nat) (reason : String) : String :=
  "Row " ++ toString (index + 2) ++ ": " ++ reason

/-- The result shape `{ valid: boolean; error?: string }` of validateUser. -/
structure VResult where
  valid : Bool
  error : Option String
deriving DecidableEq

/-- Condition of the userId check, src/handler.ts lines 47-50:
`!user.userId || (typeof user.userId !== "string" && typeof user.userId !== "number")`. -/
def userIdBad (user : RawRow) : Bool :=
  !(jsGet user.userId).truthy ||
    (!((jsGet user.userId).typeOf == "string") &&
      !((jsGet user.userId).typeOf == "number"))

/-- Condition of the name check, src/handler.ts line 55:
`!user.name || typeof user.name !== "string"`. -/
def nameBad (user : RawRow) : Bool :=
  !(jsGet user.name).truthy || !((jsGet user.name).typeOf == "string")

/-- Condition of the email check, src/handler.ts lines 60-64:
`!user.email || typeof user.email !== "string" || !isValidEmail(user.email)`.
`RegExp.test` coerces its argument to a string, hence `.toStr`. -/
def emailBad (user : RawRow) : Bool :=
  !(jsGet user.email).truthy || !((jsGet user.email).typeOf == "string") ||
    !(isValidEmail (jsGet user.email).toStr)

/-- Condition of the profileImageUrl check, src/handler.ts line 66:
`user.profileImageUrl && !isValidUrl(user.profileImageUrl)`. -/
def urlBad (user : RawRow) : Bool :=
  (jsGet user.profileImageUrl).truthy &&
    !(isValidUrl (jsGet user.profileImageUrl).toStr)

/-- src/handler.ts lines 41-72: the row validator, five checks in order,
short-circuiting at the first failure. -/
def validateUser (user : RawRow) (index : Nat) : VResult :=
  if isRowEmpty user then ⟨false, some (rowMsg index emptyReason)⟩
  else if userIdBad user then ⟨false, some (rowMsg index userIdReason)⟩
  else if nameBad user then ⟨false, some (rowMsg index nameReason)⟩
  else if emailBad user then ⟨false, some (rowMsg index emailReason)⟩
  else if urlBad user then ⟨false, some (rowMsg index urlReason)⟩
  else ⟨true, none⟩

/-- A DynamoDB put-request item, src/handler.ts lines 76-83: the `Item`
object has attributes `userId`, `name`, `email` and `profileImage` (note:
not `profileImageUrl`), each wrapped as a string attribute `{ S: v }`. -/
structure WriteItem where
  userId : JSVal
  name : JSVal
  email : JSVal
  profileImage : JSVal
deriving DecidableEq

/-- The body of the `map` in buildPutRequests: `userId: String(user.userId)`,
`profileImage: user.profileImageUrl ?? ""` (nullish coalescing: null or
undefined become the empty string, any other value is kept). -/
def putRequestOf (user : RawRow) : WriteItem :=
  { userId := .vStr (jsGet user.userId).toStr
    name := jsGet user.name
    email := jsGet user.email
    profileImage :=
      match jsGet user.profileImageUrl with
      | .vNull => .vStr ""
      | .vUndefined => .vStr ""
      | v => v }

/-- src/handler.ts lines 74-84. -/
def buildPutRequests (validUsers : List RawRow) : List WriteItem :=
  validUsers.map putRequestOf

/-- JS nullish test (`v ?? d` substitutes `d` exactly when `v` is nullish). -/
def jsNullish (v : JSVal) : Bool := v == .vNull || v == .vUndefined

def BATCH_SIZE : Nat := 25

def TABLE_NAME : String := "userTable"

/-- Helper for `Array.prototype.reduce` with the element index: fold from
the left, passing the current index to the callback. -/
def reduceIdxAux {α β : Type} (f : β → α → Nat → β) : Nat → β → List α → β
  | _, acc, [] => acc
  | n, acc, x :: xs => reduceIdxAux f (n + 1) (f acc x n) xs

/-- JS `arr.reduce((acc, item, index) => f acc item index, init)`. -/
def jsReduceIdx {α β : Type} (f : β → α → Nat → β) (init : β) (l : List α) : β :=
  reduceIdxAux f 0 init l

/-- The reduce callback of writeToDynamoDBInBatches (src/handler.ts lines
87-92): `chunkIndex = floor(index / BATCH_SIZE)`; if the batch at that
position does not exist yet it is created, then the item is pushed onto
it.  Since indices arrive in order 0,1,2,..., `chunkIndex` is never beyond
`acc.length`, so creating the batch is an append. -/
def batchStep {α : Type} (acc : List (List α)) (item : α) (index : Nat) :
    List (List α) :=
  let chunkIndex := index / BATCH_SIZE
  if chunkIndex < acc.length then
    acc.set chunkIndex (acc.getD chunkIndex [] ++ [item])
  else acc ++ [[item]]

/-- The batch partitioner: `putRequests.reduce(..., [])` from
src/handler.ts lines 86-92. -/
def makeBatches {α : Type} (putRequests : List α) : List (List α) :=
  jsReduceIdx batchStep [] putRequests

/-- The write loop of writeToDynamoDBInBatches (src/handler.ts lines
94-100): send each batch in order as `BatchWriteItemCommand` with
`RequestItems: { [TABLE_NAME]: batch }`, awaiting each call; a throw stops
the loop.  Returns the list of batches for which a send was issued, and
the error of the failing send if one failed. -/
def runBatches (send : String → List WriteItem → Except String Unit) :
    List (List WriteItem) → List (List WriteItem) × Option String
  | [] => ([], none)
  | batch :: rest =>
    match send TABLE_NAME batch with
    | .ok _ => let r := runBatches send rest; (batch :: r.1, r.2)
    | .error e => ([batch], some e)

/-- src/handler.ts lines 86-101: partition into batches, then write them
sequentially. -/
def writeToDynamoDBInBatches (send : String → List WriteItem → Except String Unit)
    (putRequests : List WriteItem) : List (List WriteItem) × Option String :=
  runBatches send (makeBatches putRequests)

/-- One step of the validation filter (src/handler.ts lines 138-142): the
filter callback pushes `result.error` onto `errors` when the row is
invalid and keeps the row when it is valid. -/
def filterStep (acc : List RawRow × List String) (user : RawRow) (index : Nat) :
    List RawRow × List String :=
  let result := validateUser user index
  if result.valid then (acc.1 ++ [user], acc.2)
  else (acc.1, acc.2 ++ result.error.toList)

/-- The validation stage: `jsonData.filter((user, i) => ...)` together
with the `errors` array it mutates, src/handler.ts lines 137-142. -/
def collectValid (jsonData : List RawRow) : List RawRow × List String :=
  jsReduceIdx filterStep ([], []) jsonData

/-- Order-preserving selection of the rows that validate, starting at
row index `i` (specification-side description of the valid-user list). -/
def validFilter (i : Nat) : List RawRow → List RawRow
  | [] => []
  | u :: rest =>
    if (validateUser u i).valid then u :: validFilter (i + 1) rest
    else validFilter (i + 1) rest

/-- Order-preserving collection of the diagnostic strings, starting at
row index `i` (specification-side description of the error list). -/
def errList (i : Nat) : List RawRow → List String
  | [] => []
  | u :: rest => (validateUser u i).error.toList ++ errList (i + 1) rest

/-- Contiguous chunking of a list into pieces of BATCH_SIZE (the last
piece may be shorter); reference description of the batch partitioner. -/
def chunkList {α : Type} : List α → List (List α)
  | [] => []
  | x :: xs => ((x :: xs).take BATCH_SIZE) :: chunkList ((x :: xs).drop BATCH_SIZE)
termination_by l => l.length
decreasing_by simp [BATCH_SIZE]; omega

/-- Chunking continued from a partially filled current chunk `cur`. -/
def chunkCont {α : Type} (cur : List α) (l : List α) : List (List α) :=
  if cur.isEmpty then chunkList l
  else (cur ++ l.take (BATCH_SIZE - cur.length)) ::
    chunkList (l.drop (BATCH_SIZE - cur.length))

/-- The part of one S3 event record the handler reads:
`record?.s3?.bucket?.name` and `record?.s3?.object?.key`, flattened;
`none` models any break in the optional chain. -/
structure S3EventRecord where
  bucketName : Option String
  objectKey : Option String
deriving DecidableEq

/-- The trigger event: `event.Records`. -/
structure S3Event where
  records : List S3EventRecord
deriving DecidableEq

/-- The decoded workbook: ordered sheet names and a sheet lookup.  The
sheet type `σ` is abstract; only the decode collaborator interprets it. -/
structure Workbook (σ : Type) where
  sheetNames : List String
  sheets : String → σ

/-- The external collaborators of the handler, each allowed to throw
(modelled as `Except.error`): URI decoding of the key, the S3 object
fetch (including streamToBuffer), `XLSX.read`, `sheet_to_json`, and the
DynamoDB send. -/
structure Env (σ : Type) where
  uriDecode : String → Except String String
  getObject : String → String → Except String (List Nat)
  readWorkbook : List Nat → Except String (Workbook σ)
  sheetToJson : σ → Except String (List RawRow)
  send : String → List WriteItem → Except String Unit

/-- The observable actions of one invocation: console output and issued
DynamoDB batch-write calls. -/
inductive LogEvent where
  | logError (msg : String)
  | logErrorWith (msg : String) (err : String)
  | logWarn (msg : String)
  | logWarnList (msg : String) (items : List String)
  | logInfo (msg : String)
  | dynamoSend (table : String) (batch : List WriteItem)
deriving DecidableEq

/-- The plus-to-space step of key decoding: `key.replace(/\+/g, " ")`. -/
def plusToSpace (s : String) : String :=
  s.map (fun c => if c == '+' then ' ' else c)

/-- JS falsiness of an optional string (absent, undefined or empty). -/
def jsStrFalsy (o : Option String) : Bool := o.getD "" == ""

/-- The body of the `try` block of the handler (src/handler.ts lines
104-153).  Returns the trace of observable events together with the
uncaught error, if one was thrown. -/
def handlerTry {σ : Type} (env : Env σ) (event : S3Event) :
    List LogEvent × Option String :=
  match event.records.head? with
  | none => ([.logError "Invalid event format"], none)
  | some record =>
    if jsStrFalsy record.bucketName || jsStrFalsy record.objectKey then
      ([.logError "Invalid event format"], none)
    else
      match env.uriDecode (plusToSpace (record.objectKey.getD "")) with
      | .error e => ([], some e)
      | .ok key =>
        match env.getObject (record.bucketName.getD "") key with
        | .error e => ([], some e)
        | .ok buffer =>
          match env.readWorkbook buffer with
          | .error e => ([], some e)
          | .ok workbook =>
            if workbook.sheetNames.isEmpty then
              ([.logError "No sheets found in Excel file."], none)
            else
              match env.sheetToJson (workbook.sheets (workbook.sheetNames.headD "")) with
              | .error e => ([], some e)
              | .ok jsonData =>
                if jsonData.isEmpty then
                  ([.logError "Excel sheet is empty."], none)
                else
                  let vres := collectValid jsonData
                  if vres.1.isEmpty then
                    ([.logWarn "No valid records found."], none)
                  else
                    let putRequests := buildPutRequests vres.1
                    let wres := writeToDynamoDBInBatches env.send putRequests
                    let sends := wres.1.map (LogEvent.dynamoSend TABLE_NAME)
                    match wres.2 with
                    | some e => (sends, some e)
                    | none =>
                      (sends ++
                        [.logInfo ("Uploaded " ++ toString putRequests.length ++
                          " records to DynamoDB.")] ++
                        (if vres.2.isEmpty then []
                         else [.logWarnList
                           ("skipped " ++ toString vres.2.length ++ " rows:")
                           vres.2]), none)

/-- src/handler.ts lines 103-157: the exported handler; the whole body is
wrapped in try/catch and the catch logs `"Lambda failed:"` with the error.
The handler always returns (a trace), never re-throws. -/
def handler {σ : Type} (env : Env σ) (event : S3Event) : List LogEvent :=
  match handlerTry env event with
  | (t, none) => t
  | (t, some e) => t ++ [.logErrorWith "Lambda failed:" e]

/-! ### List helper lemmas -/

theorem getD_append_singleton {α : Type} (pre : List (List α)) (cur : List α) :
    (pre ++ [cur]).getD pre.length [] = cur := by
  induction pre with
  | nil => rfl
  | cons p ps ih => simpa using ih

theorem set_append_singleton {α : Type} (pre : List (List α)) (cur v : List α) :
    (pre ++ [cur]).set pre.length v = pre ++ [v] := by
  induction pre with
  | nil => rfl
  | cons p ps ih => simpa using ih

theorem getD_take {α : Type} :
    ∀ (l : List α) (n i : Nat) (d : α), i < n → (l.take n).getD i d = l.getD i d := by
  intro l
  induction l with
  | nil => intro n i d _; simp
  | cons x xs ih =>
    intro n i d hin
    cases n with
    | zero => omega
    | succ n =>
      cases i with
      | zero => rfl
      | succ i => simpa [List.getD] using ih n i d (by omega)

theorem getD_drop {α : Type} :
    ∀ (l : List α) (n i : Nat) (d : α), (l.drop n).getD i d = l.getD (n + i) d := by
  intro l
  induction l with
  | nil => intro n i d; simp
  | cons x xs ih =>
    intro n i d
    cases n with
    | zero => simp
    | succ n =>
      have h1 : n + 1 + i = (n + i) + 1 := by omega
      simpa [List.getD, h1] using ih n i d

/-! ### Chunking lemmas -/

theorem chunkList_nil {α : Type} : chunkList ([] : List α) = [] := by
  simp [chunkList]

theorem chunkList_cons {α : Type} (x : α) (xs : List α) :
    chunkList (x :: xs) = ((x :: xs).take BATCH_SIZE) :: chunkList ((x :: xs).drop BATCH_SIZE) := by
  simp [chunkList]

theorem chunkList_ne_nil {α : Type} (l : List α) (h : l ≠ []) :
    chunkList l = l.take BATCH_SIZE :: chunkList (l.drop BATCH_SIZE) := by
  cases l with
  | nil => exact absurd rfl h
  | cons x xs => exact chunkList_cons x xs

theorem chunkList_eq_nil_iff {α : Type} (l : List α) :
    chunkList l = [] ↔ l = [] := by
  cases l with
  | nil => simp [chunkList_nil]
  | cons x xs => simp [chunkList_cons]

/-- Joining the chunks gives back the list. -/
theorem chunkList_join {α : Type} :
    ∀ (n : Nat) (l : List α), l.length ≤ n → (chunkList l).flatten = l := by
  intro n
  induction n with
  | zero =>
    intro l hl
    have : l = [] := by
      cases l with
      | nil => rfl
      | cons x xs => simp at hl
    subst this; simp [chunkList_nil]
  | succ n ih =>
    intro l hl
    cases l with
    | nil => simp [chunkList_nil]
    | cons x xs =>
      rw [chunkList_cons]
      have hdrop : ((x :: xs).drop BATCH_SIZE).length ≤ n := by
        simp [BATCH_SIZE] at hl ⊢; omega
      rw [List.flatten_cons, ih _ hdrop, List.take_append_drop]

/-- Every chunk is non-empty and no longer than BATCH_SIZE. -/
theorem chunkList_mem {α : Type} :
    ∀ (n : Nat) (l : List α) (b : List α), l.length ≤ n → b ∈ chunkList l →
      b ≠ [] ∧ b.length ≤ BATCH_SIZE := by
  intro n
  induction n with
  | zero =>
    intro l b hl hb
    have : l = [] := by
      cases l with
      | nil => rfl
      | cons x xs => simp at hl
    subst this; simp [chunkList_nil] at hb
  | succ n ih =>
    intro l b hl hb
    cases l with
    | nil => simp [chunkList_nil] at hb
    | cons x xs =>
      rw [chunkList_cons] at hb
      rcases List.mem_cons.mp hb with h | h
      · subst h
        constructor
        · simp [BATCH_SIZE]
        · simpa using List.length_take_le BATCH_SIZE (x :: xs)
      · exact ih ((x :: xs).drop BATCH_SIZE) b (by simp [BATCH_SIZE] at hl ⊢; omega) h

/-- Every chunk except possibly the last has length exactly BATCH_SIZE. -/
theorem chunkList_full {α : Type} :
    ∀ (n : Nat) (l : List α) (i : Nat), l.length ≤ n → i + 1 < (chunkList l).length →
      ((chunkList l).getD i []).length = BATCH_SIZE := by
  intro n
  induction n with
  | zero =>
    intro l i hl hi
    have : l = [] := by
      cases l with
      | nil => rfl
      | cons x xs => simp at hl
    subst this; simp [chunkList_nil] at hi
  | succ n ih =>
    intro l i hl hi
    cases l with
    | nil => simp [chunkList_nil] at hi
    | cons x xs =>
      rw [chunkList_cons] at hi ⊢
      cases i with
      | zero =>
        simp only [List.length_cons] at hi
        have hne : chunkList ((x :: xs).drop BATCH_SIZE) ≠ [] := by
          intro h; rw [h] at hi; simp at hi
        have hdropne : (x :: xs).drop BATCH_SIZE ≠ [] := by
          intro h; exact hne (by rw [h, chunkList_nil])
        have hlen : BATCH_SIZE < (x :: xs).length := by
          by_contra hcon
          exact hdropne (List.drop_eq_nil_iff.mpr (by omega))
        simp [List.length_take, BATCH_SIZE] at hlen ⊢
        omega
      | succ i =>
        simp only [List.getD_cons_succ]
        exact ih ((x :: xs).drop BATCH_SIZE) i (by simp [BATCH_SIZE] at hl ⊢; omega)
          (by simpa using hi)

/-- The item at index `i` sits in chunk `i / BATCH_SIZE` at offset
`i % BATCH_SIZE`. -/
theorem chunkList_getD {α : Type} :
    ∀ (n : Nat) (l : List α) (i : Nat) (d : α), l.length ≤ n → i < l.length →
      ((chunkList l).getD (i / BATCH_SIZE) []).getD (i % BATCH_SIZE) d = l.getD i d := by
  intro n
  induction n with
  | zero =>
    intro l i d hl hi
    omega
  | succ n ih =>
    intro l i d hl hi
    cases l with
    | nil => simp at hi
    | cons x xs =>
      rw [chunkList_cons]
      by_cases hsmall : i < BATCH_SIZE
      · have hdiv : i / BATCH_SIZE = 0 := by
          simp [BATCH_SIZE] at hsmall ⊢; omega
        have hmod : i % BATCH_SIZE = i := by
          simp [BATCH_SIZE] at hsmall ⊢; omega
        rw [hdiv, hmod]
        simpa using getD_take (x :: xs) BATCH_SIZE i d hsmall
      · have hdiv : i / BATCH_SIZE = (i - BATCH_SIZE) / BATCH_SIZE + 1 := by
          simp [BATCH_SIZE] at hsmall ⊢; omega
        have hmod : i % BATCH_SIZE = (i - BATCH_SIZE) % BATCH_SIZE := by
          simp [BATCH_SIZE] at hsmall ⊢; omega
        rw [hdiv, hmod, List.getD_cons_succ]
        have hlen : ((x :: xs).drop BATCH_SIZE).length ≤ n := by
          simp [BATCH_SIZE] at hl ⊢; omega
        have hi' : i - BATCH_SIZE < ((x :: xs).drop BATCH_SIZE).length := by
          simp [BATCH_SIZE] at hsmall hi ⊢; omega
        rw [ih _ _ d hlen hi', getD_drop]
        congr 1
        simp [BATCH_SIZE] at hsmall ⊢
        omega

/-- Starting a fresh chunk with `x` agrees with chunking `x :: xs`. -/
theorem chunkCont_nil_cons {α : Type} (x : α) (xs : List α) :
    chunkCont [] (x :: xs) = chunkCont [x] xs := by
  have h : BATCH_SIZE = 24 + 1 := rfl
  simp only [chunkCont, List.isEmpty_nil, List.isEmpty_cons, if_true, Bool.false_eq_true,
    if_false, List.length_cons, List.length_nil]
  rw [chunkList_cons, h]
  simp [List.take_succ_cons, List.drop_succ_cons]

/-- Extending the current chunk with one more item (still not full). -/
theorem chunkCont_extend {α : Type} (x : α) (xs cur : List α)
    (h : cur.length + 1 < BATCH_SIZE) :
    chunkCont cur (x :: xs) = chunkCont (cur ++ [x]) xs := by
  have h25 : BATCH_SIZE = 25 := rfl
  by_cases hc : cur = []
  · subst hc; simpa using chunkCont_nil_cons x xs
  · have hcf : cur.isEmpty = false := by
      cases cur with
      | nil => exact absurd rfl hc
      | cons a l => rfl
    have hcf' : (cur ++ [x]).isEmpty = false := by cases cur <;> rfl
    simp only [chunkCont, hcf, hcf', Bool.false_eq_true, if_false,
      List.length_append, List.length_cons, List.length_nil]
    have e : BATCH_SIZE - cur.length = (BATCH_SIZE - (cur.length + 1)) + 1 := by
      rw [h25] at h ⊢; omega
    rw [e, List.take_succ_cons, List.drop_succ_cons]
    simp

/-- Completing the current chunk: the item fills it to BATCH_SIZE. -/
theorem chunkCont_complete {α : Type} (x : α) (xs cur : List α)
    (h : cur.length + 1 = BATCH_SIZE) :
    chunkCont cur (x :: xs) = (cur ++ [x]) :: chunkList xs := by
  have hone : BATCH_SIZE - cur.length = 1 := by omega
  have hc : cur.isEmpty = false := by
    cases cur with
    | nil => simp [BATCH_SIZE] at h
    | cons a l => rfl
  simp [chunkCont, hc, hone, List.take_succ_cons, List.drop_succ_cons]

/-- The fold invariant for the batch partitioner: processing the remaining
items `l` starting from index `BATCH_SIZE * pre.length + cur.length`, with
`pre` the completed batches and `cur` the (possibly empty) batch being
filled, continues the contiguous chunking. -/
theorem makeBatches_aux {α : Type} (l : List α) :
    ∀ (pre : List (List α)) (cur : List α), cur.length < BATCH_SIZE →
      reduceIdxAux batchStep (BATCH_SIZE * pre.length + cur.length)
        (pre ++ if cur.isEmpty then [] else [cur]) l = pre ++ chunkCont cur l := by
  induction l with
  | nil =>
    intro pre cur hcur
    by_cases hc : cur = []
    · subst hc
      simp [reduceIdxAux, chunkCont, chunkList_nil]
    · simp [reduceIdxAux, chunkCont, hc, chunkList_nil]
  | cons x xs ih =>
    intro pre cur hcur
    have h25 : BATCH_SIZE = 25 := rfl
    by_cases hc : cur = []
    · subst hc
      simp only [List.isEmpty_nil, if_true, List.append_nil, List.length_nil, Nat.add_zero]
      simp only [reduceIdxAux]
      have hstep : batchStep pre x (BATCH_SIZE * pre.length) = pre ++ [[x]] := by
        have hdiv : BATCH_SIZE * pre.length / BATCH_SIZE = pre.length := by
          rw [h25]; omega
        simp [batchStep, hdiv]
      rw [hstep]
      have happ := ih pre [x] (by simp [BATCH_SIZE])
      simp only [List.isEmpty_cons, List.length_cons, List.length_nil] at happ
      rw [chunkCont_nil_cons]
      simpa using happ
    · have hne : cur.isEmpty = false := by
        cases cur with
        | nil => exact absurd rfl hc
        | cons a l => rfl
      simp only [hne, Bool.false_eq_true, if_false]
      simp only [reduceIdxAux]
      have hstep : batchStep (pre ++ [cur]) x (BATCH_SIZE * pre.length + cur.length) =
          pre ++ [cur ++ [x]] := by
        have hdiv : (BATCH_SIZE * pre.length + cur.length) / BATCH_SIZE = pre.length := by
          rw [h25] at hcur ⊢; omega
        have hlt : pre.length < (pre ++ [cur]).length := by simp
        simp [batchStep, hdiv, hlt, getD_append_singleton, set_append_singleton]
      rw [hstep]
      by_cases hfull : cur.length + 1 = BATCH_SIZE
      · have happ := ih (pre ++ [cur ++ [x]]) [] (by simp [BATCH_SIZE])
        have hcc : chunkCont ([] : List α) xs = chunkList xs := by simp [chunkCont]
        simp only [List.isEmpty_nil, if_true, List.append_nil, List.length_nil,
          Nat.add_zero, List.length_append, List.length_cons, hcc] at happ
        have hidx : BATCH_SIZE * pre.length + cur.length + 1 =
            BATCH_SIZE * (pre.length + 1) := by
          rw [h25] at hfull ⊢; omega
        rw [hidx]
        rw [chunkCont_complete x xs cur hfull]
        rw [show pre ++ (cur ++ [x]) :: chunkList xs =
          (pre ++ [cur ++ [x]]) ++ chunkList xs by simp]
        simpa using happ
      · have hlt' : (cur ++ [x]).length < BATCH_SIZE := by
          simp only [List.length_append, List.length_cons, List.length_nil]
          omega
        have happ := ih pre (cur ++ [x]) hlt'
        have hne' : (cur ++ [x]).isEmpty = false := by
          cases cur <;> rfl
        simp only [hne', Bool.false_eq_true, if_false, List.length_append,
          List.length_cons, List.length_nil] at happ
        rw [chunkCont_extend x xs cur (by omega)]
        have hidx : BATCH_SIZE * pre.length + cur.length + 1 =
            BATCH_SIZE * pre.length + (cur.length + 1) := by omega
        rw [hidx]
        simpa using happ

/-- The batch partitioner is exactly contiguous chunking. -/
theorem makeBatches_eq_chunkList {α : Type} (l : List α) :
    makeBatches l = chunkList l := by
  have h := makeBatches_aux l [] [] (by simp [BATCH_SIZE])
  simpa [makeBatches, jsReduceIdx, chunkCont] using h

/-- Chunk sizes of a 52-element list. -/
theorem chunkList_len52 {α : Type} (l : List α) (h : l.length = 52) :
    (chunkList l).map List.length = [25, 25, 2] := by
  have h25 : BATCH_SIZE = 25 := rfl
  have h1 : l ≠ [] := by intro he; rw [he] at h; simp at h
  rw [chunkList_ne_nil l h1]
  have hd1 : (l.drop BATCH_SIZE).length = 27 := by simp [h25, h]
  have h2 : l.drop BATCH_SIZE ≠ [] := by intro he; rw [he] at hd1; simp at hd1
  rw [chunkList_ne_nil _ h2]
  have hd2 : ((l.drop BATCH_SIZE).drop BATCH_SIZE).length = 2 := by
    simp [h25, h]
  have h3 : (l.drop BATCH_SIZE).drop BATCH_SIZE ≠ [] := by
    intro he; rw [he] at hd2; simp at hd2
  rw [chunkList_ne_nil _ h3]
  have hd3 : (((l.drop BATCH_SIZE).drop BATCH_SIZE).drop BATCH_SIZE).length = 0 := by
    simp [h25, h]
  rw [List.length_eq_zero.mp hd3, chunkList_nil]
  simp [List.length_take, h25, h, hd1, hd2]

/-- C1: the batch partitioner places the item at source index i into the
batch at position floor(i / 25), yielding a contiguous, order-preserving
chunking: the batches concatenate back to the input, every batch is
non-empty with at most 25 items, only the last batch may be smaller, 52
items give batches of sizes [25, 25, 2], and the empty input gives no
batches. -/
theorem batch_partitioner_correct (l : List WriteItem) :
    (makeBatches l).flatten = l
    ∧ (∀ b, b ∈ makeBatches l → b ≠ [] ∧ b.length ≤ BATCH_SIZE)
    ∧ (∀ i, i + 1 < (makeBatches l).length →
        ((makeBatches l).getD i []).length = BATCH_SIZE)
    ∧ (∀ i d, i < l.length →
        ((makeBatches l).getD (i / BATCH_SIZE) []).getD (i % BATCH_SIZE) d = l.getD i d)
    ∧ (l.length = 52 → (makeBatches l).map List.length = [25, 25, 2])
    ∧ makeBatches ([] : List WriteItem) = [] := by
  simp only [makeBatches_eq_chunkList]
  exact ⟨chunkList_join l.length l le_rfl,
    fun b hb => chunkList_mem l.length l b le_rfl hb,
    fun i hi => chunkList_full l.length l i le_rfl hi,
    fun i d hi => chunkList_getD l.length l i d le_rfl hi,
    fun h52 => chunkList_len52 l h52,
    chunkList_nil⟩

/-- A sample write item used for concrete instantiations. -/
def wItem : WriteItem :=
  ⟨.vStr "1", .vStr "n", .vStr "e@x.co", .vStr ""⟩

/-- A concrete 52-item put-request list. -/
def w52 : List WriteItem := List.replicate 52 wItem

set_option maxRecDepth 8192 in
/-- Witness for C1 at a concrete 52-item input. -/
theorem batch_partitioner_correct_witness :
    (List.replicate 25 wItem ≠ [] ∧ (List.replicate 25 wItem).length ≤ BATCH_SIZE)
    ∧ ((makeBatches w52).getD 0 []).length = BATCH_SIZE
    ∧ ((makeBatches w52).getD (30 / BATCH_SIZE) []).getD (30 % BATCH_SIZE) wItem
        = w52.getD 30 wItem
    ∧ (makeBatches w52).map List.length = [25, 25, 2] :=
  ⟨(batch_partitioner_correct w52).2.1 (List.replicate 25 wItem) (by decide),
   (batch_partitioner_correct w52).2.2.1 0 (by decide),
   (batch_partitioner_correct w52).2.2.2.1 30 wItem (by decide),
   (batch_partitioner_correct w52).2.2.2.2.1 (by decide)⟩

/-! ### Validation: message formatting and check characterizations -/

theorem rowMsg_len (i : Nat) (a : String) :
    (rowMsg i a).length = (toString (i + 2)).length + a.length + 6 := by
  have h1 : ("Row " : String).length = 4 := rfl
  have h2 : (": " : String).length = 2 := rfl
  simp [rowMsg, String.length_append, h1, h2]
  omega

theorem rowMsg_ne (i : Nat) (a b : String) (h : a.length ≠ b.length) :
    rowMsg i a ≠ rowMsg i b := by
  intro he
  have hl := congrArg String.length he
  rw [rowMsg_len, rowMsg_len] at hl
  omega

/-- A valid result carries no error and vice versa. -/
theorem valid_iff_error_none (r : RawRow) (i : Nat) :
    (validateUser r i).valid = true ↔ (validateUser r i).error = none := by
  unfold validateUser
  split_ifs <;> simp

/-- Exactly when does the userId check fire (given the row is non-empty):
on absent, null, boolean, empty-string and zero values.  Note the number
0 fails the check because `!user.userId` is true for 0 in JS. -/
theorem userIdBad_iff (r : RawRow) :
    userIdBad r = true ↔
      (jsGet r.userId = .vUndefined ∨ jsGet r.userId = .vNull ∨
        (∃ b, jsGet r.userId = .vBool b) ∨ jsGet r.userId = .vStr "" ∨
        jsGet r.userId = .vNum 0) := by
  cases h : jsGet r.userId <;>
    simp [userIdBad, h, JSVal.truthy, JSVal.typeOf]

/-- Error possibilities once the emptiness and userId checks have passed. -/
theorem validate_after_userId (r : RawRow) (i : Nat)
    (hne : isRowEmpty r = false) (hu : userIdBad r = false) :
    (validateUser r i).error = none ∨
    (validateUser r i).error = some (rowMsg i nameReason) ∨
    (validateUser r i).error = some (rowMsg i emailReason) ∨
    (validateUser r i).error = some (rowMsg i urlReason) := by
  unfold validateUser
  rw [hne, hu]
  split_ifs <;> simp_all

/-- C2 (amended): for a row that passes the emptiness check, the userId
check fails exactly when the field is absent, null, of boolean type, the
empty string, or the number 0 (the last case is the amendment: 0 is falsy
in JS, so a numeric userId of 0 is rejected); every row whose userId is a
nonzero number passes the userId check. -/
theorem userId_check_amended (r : RawRow) (i : Nat)
    (hne : isRowEmpty r = false) :
    ((validateUser r i).error = some (rowMsg i userIdReason) ↔
      (jsGet r.userId = .vUndefined ∨ jsGet r.userId = .vNull ∨
        (∃ b, jsGet r.userId = .vBool b) ∨ jsGet r.userId = .vStr "" ∨
        jsGet r.userId = .vNum 0))
    ∧ (∀ n : Int, n ≠ 0 → jsGet r.userId = .vNum n →
        (validateUser r i).error ≠ some (rowMsg i userIdReason)) := by
  have hnameNe : rowMsg i nameReason ≠ rowMsg i userIdReason :=
    rowMsg_ne i nameReason userIdReason (by decide)
  have hemailNe : rowMsg i emailReason ≠ rowMsg i userIdReason :=
    rowMsg_ne i emailReason userIdReason (by decide)
  have hurlNe : rowMsg i urlReason ≠ rowMsg i userIdReason :=
    rowMsg_ne i urlReason userIdReason (by decide)
  by_cases hu : userIdBad r
  · constructor
    · rw [← userIdBad_iff]
      unfold validateUser
      rw [hne, hu]
      simp [hu]
    · intro n hn hgot
      rcases (userIdBad_iff r).mp hu with h | h | ⟨b, h⟩ | h | h <;>
        rw [hgot] at h <;> simp_all
  · have hu' : userIdBad r = false := by simpa using hu
    constructor
    · rw [← userIdBad_iff]
      constructor
      · intro hmsg
        rcases validate_after_userId r i hne hu' with h | h | h | h <;>
          rw [h] at hmsg <;> simp_all
      · intro h; rw [h] at hu'; simp at hu'
    · intro n hn hgot hmsg
      rcases validate_after_userId r i hne hu' with h | h | h | h <;>
        rw [h] at hmsg <;> simp_all

/-- The concrete row refuting C2 as stated: userId is the number 0, the
row is not empty, yet the userId check reports it. -/
def zeroIdRow : RawRow :=
  ⟨some (.vNum 0), some (.vStr "Bob"), some (.vStr "bob@example.com"), none⟩

/-- C2 counterexample: a row whose userId is a number (so by the claim the
userId check should pass) and which is not empty, but validateUser reports
the userId failure on it. -/
theorem userId_check_counterexample :
    (jsGet zeroIdRow.userId).typeOf = "number"
    ∧ isRowEmpty zeroIdRow = false
    ∧ (validateUser zeroIdRow 0).error = some (rowMsg 0 userIdReason) := by
  refine ⟨rfl, rfl, ?_⟩
  decide

/-- Witness for C2 (amended) at a concrete non-empty row with a nonzero
numeric userId. -/
theorem userId_check_amended_witness :
    (validateUser ⟨some (.vNum 7), some (.vStr "A"), some (.vStr "a@b.co"), none⟩ 0).error
      ≠ some (rowMsg 0 userIdReason) :=
  (userId_check_amended ⟨some (.vNum 7), some (.vStr "A"), some (.vStr "a@b.co"), none⟩ 0
    (by decide)).2 7 (by decide) (by decide)

/-! ### Email matcher characterization -/

theorem domAux_iff (t : Char → Bool) :
    ∀ cs : List Char, domAux t cs = true ↔
      ∃ b c, cs = b ++ '.' :: c ∧ c ≠ [] ∧ b.all nsna = true ∧ c.all t = true := by
  intro cs
  induction cs with
  | nil =>
    simp only [domAux]
    constructor
    · intro h; simp at h
    · rintro ⟨b, c, habs, -, -, -⟩
      cases b <;> simp at habs
  | cons c0 rest ih =>
    simp only [domAux, Bool.or_eq_true, Bool.and_eq_true, beq_iff_eq,
      Bool.not_eq_true', List.isEmpty_eq_false]
    constructor
    · rintro (⟨⟨hdot, hrest⟩, hall⟩ | ⟨hc0, hrec⟩)
      · exact ⟨[], rest, by rw [hdot]; rfl, hrest, rfl, hall⟩
      · obtain ⟨b, c, heq, hc, hb, hct⟩ := ih.mp hrec
        exact ⟨c0 :: b, c, by rw [heq]; rfl, hc, by simp [hb, hc0], hct⟩
    · rintro ⟨b, c, heq, hc, hb, hct⟩
      cases b with
      | nil =>
        simp at heq
        exact Or.inl ⟨⟨heq.1, by rw [heq.2]; exact hc⟩, by rw [heq.2]; exact hct⟩
      | cons b0 bs =>
        simp at heq hb
        refine Or.inr ⟨by rw [heq.1]; exact hb.1, ?_⟩
        exact ih.mpr ⟨bs, c, heq.2, hc, by simpa using hb.2, hct⟩

theorem domMatch_iff (t : Char → Bool) (cs : List Char) :
    domMatch t cs = true ↔
      ∃ b c, cs = b ++ '.' :: c ∧ b ≠ [] ∧ c ≠ [] ∧ b.all nsna = true ∧ c.all t = true := by
  cases cs with
  | nil =>
    simp only [domMatch]
    constructor
    · intro h; simp at h
    · rintro ⟨b, c, habs, -, -, -, -⟩
      cases b <;> simp at habs
  | cons c0 rest =>
    simp only [domMatch, Bool.and_eq_true]
    constructor
    · rintro ⟨hc0, hrec⟩
      obtain ⟨b, c, heq, hc, hb, hct⟩ := (domAux_iff t rest).mp hrec
      exact ⟨c0 :: b, c, by rw [heq]; rfl, by simp, hc, by simp [hb, hc0], hct⟩
    · rintro ⟨b, c, heq, hbne, hc, hb, hct⟩
      cases b with
      | nil => exact absurd rfl hbne
      | cons b0 bs =>
        simp at heq hb
        exact ⟨by rw [heq.1]; exact hb.1,
          (domAux_iff t rest).mpr ⟨bs, c, heq.2, hc, by simpa using hb.2, hct⟩⟩

theorem emailAux_iff (t : Char → Bool) :
    ∀ cs : List Char, emailAux t cs = true ↔
      ∃ a rest, cs = a ++ '@' :: rest ∧ a.all nsna = true ∧ domMatch t rest = true := by
  intro cs
  induction cs with
  | nil =>
    simp only [emailAux]
    constructor
    · intro h; simp at h
    · rintro ⟨a, rest, habs, -, -⟩
      cases a <;> simp at habs
  | cons c0 cs0 ih =>
    simp only [emailAux, Bool.or_eq_true, Bool.and_eq_true, beq_iff_eq]
    constructor
    · rintro (⟨hat, hdom⟩ | ⟨hc0, hrec⟩)
      · exact ⟨[], cs0, by rw [hat]; rfl, rfl, hdom⟩
      · obtain ⟨a, rest, heq, ha, hdom⟩ := ih.mp hrec
        exact ⟨c0 :: a, rest, by rw [heq]; rfl, by simp [ha, hc0], hdom⟩
    · rintro ⟨a, rest, heq, ha, hdom⟩
      cases a with
      | nil =>
        simp at heq
        exact Or.inl ⟨heq.1, by rw [heq.2]; exact hdom⟩
      | cons a0 as0 =>
        simp at heq ha
        refine Or.inr ⟨by rw [heq.1]; exact ha.1, ?_⟩
        exact ih.mpr ⟨as0, rest, heq.2, by simpa using ha.2, hdom⟩

/-- The recursive matcher recognizes exactly the anchored regex language:
a decomposition `a @ b . c` with `a`, `b` non-empty in class `[^\s@]` and
`c` non-empty in the final-segment class `t`. -/
theorem emailMatch_iff (t : Char → Bool) (cs : List Char) :
    emailMatch t cs = true ↔
      ∃ a b c, cs = a ++ '@' :: (b ++ '.' :: c) ∧ a ≠ [] ∧ b ≠ [] ∧ c ≠ []
        ∧ a.all nsna = true ∧ b.all nsna = true ∧ c.all t = true := by
  cases cs with
  | nil =>
    simp only [emailMatch]
    constructor
    · intro h; simp at h
    · rintro ⟨a, b, c, habs, -, -, -, -, -, -⟩
      cases a <;> simp at habs
  | cons c0 rest =>
    simp only [emailMatch, Bool.and_eq_true]
    constructor
    · rintro ⟨hc0, hrec⟩
      obtain ⟨a, r, heq, ha, hdom⟩ := (emailAux_iff t rest).mp hrec
      obtain ⟨b, c, heqr, hbne, hc, hb, hct⟩ := (domMatch_iff t r).mp hdom
      exact ⟨c0 :: a, b, c, by rw [heq, heqr]; rfl, by simp, hbne, hc,
        by simp [ha, hc0], hb, hct⟩
    · rintro ⟨a, b, c, heq, hane, hbne, hc, ha, hb, hct⟩
      cases a with
      | nil => exact absurd rfl hane
      | cons a0 as0 =>
        simp at heq ha
        refine ⟨by rw [heq.1]; exact ha.1, ?_⟩
        exact (emailAux_iff t rest).mpr ⟨as0, b ++ '.' :: c, heq.2, by simpa using ha.2,
          (domMatch_iff t _).mpr ⟨b, c, rfl, hbne, hc, hb, hct⟩⟩

/-- The language of the code regex `^[^\s@]+@[^\s@]+\.[^\s@]+$`, stated
declaratively. -/
def emailShape (s : String) : Prop :=
  ∃ a b c : List Char, s.data = a ++ '@' :: (b ++ '.' :: c)
    ∧ a ≠ [] ∧ b ≠ [] ∧ c ≠ []
    ∧ a.all nsna = true ∧ b.all nsna = true ∧ c.all nsna = true

theorem isValidEmail_iff (s : String) : isValidEmail s = true ↔ emailShape s :=
  emailMatch_iff nsna s.data

/-- The email check condition, characterized declaratively. -/
theorem emailBad_iff (r : RawRow) :
    emailBad r = true ↔
      ¬((jsGet r.email).truthy = true ∧ (jsGet r.email).typeOf = "string" ∧
        emailShape (jsGet r.email).toStr) := by
  constructor
  · intro h
    rintro ⟨h1, h2, h3⟩
    rw [← isValidEmail_iff] at h3
    unfold emailBad at h
    rw [h1, h2, h3] at h
    simp at h
  · intro h
    by_contra hne
    have hf : emailBad r = false := by simpa using hne
    unfold emailBad at hf
    simp only [Bool.or_eq_false_iff, Bool.not_eq_false'] at hf
    exact h ⟨hf.1.1, by simpa using hf.1.2, (isValidEmail_iff _).mp hf.2⟩

/-- Error possibilities once emptiness, userId, name and email checks
have all passed. -/
theorem validate_after_email (r : RawRow) (i : Nat)
    (hne : isRowEmpty r = false) (hu : userIdBad r = false)
    (hn : nameBad r = false) (he : emailBad r = false) :
    (validateUser r i).error = none ∨
    (validateUser r i).error = some (rowMsg i urlReason) := by
  unfold validateUser
  rw [hne, hu, hn, he]
  split_ifs <;> simp_all

/-- C3 (amended): for a row reaching the email check, the check passes
exactly when the email field is truthy, a string, and matches the code
regex language: local and domain parts of non-space non-at characters and
a final segment of non-space NON-AT characters (the amendment: the spec
text allowed an at sign after the dot, the code regex does not);
"foo@bar" is rejected and "foo@bar.com" passes. -/
theorem email_check_amended (r : RawRow) (i : Nat)
    (hne : isRowEmpty r = false) (hu : userIdBad r = false)
    (hn : nameBad r = false) :
    ((validateUser r i).error = some (rowMsg i emailReason) ↔
      ¬((jsGet r.email).truthy = true ∧ (jsGet r.email).typeOf = "string" ∧
        emailShape (jsGet r.email).toStr))
    ∧ isValidEmail "foo@bar" = false
    ∧ isValidEmail "foo@bar.com" = true := by
  refine ⟨?_, by decide, by decide⟩
  by_cases he : emailBad r
  · rw [iff_true_right ((emailBad_iff r).mp he)]
    unfold validateUser
    rw [hne, hu, hn, he]
    simp
  · have he' : emailBad r = false := by simpa using he
    have hcond : (jsGet r.email).truthy = true ∧ (jsGet r.email).typeOf = "string" ∧
        emailShape (jsGet r.email).toStr := by
      by_contra hcon
      rw [← emailBad_iff] at hcon
      rw [he'] at hcon
      exact Bool.false_ne_true hcon
    rw [iff_false_right (by simpa using hcond)]
    have hurlNe : rowMsg i urlReason ≠ rowMsg i emailReason :=
      rowMsg_ne i urlReason emailReason (by decide)
    rcases validate_after_email r i hne hu hn he' with h | h <;> rw [h] <;> simp_all

/-- The concrete row refuting C3 as stated: its email has an at sign in
the final segment. -/
def atTailRow : RawRow :=
  ⟨some (.vStr "u1"), some (.vStr "Bob"), some (.vStr "a@b.c@d"), none⟩

/-- C3 counterexample: the pattern stated in the claim (final segment only
excludes spaces) accepts "a@b.c@d", but the code regex rejects it and
validateUser reports the email failure on a row carrying it. -/
theorem email_check_counterexample :
    specEmailAccept "a@b.c@d" = true
    ∧ isValidEmail "a@b.c@d" = false
    ∧ (validateUser atTailRow 0).error = some (rowMsg 0 emailReason) := by
  decide

/-- Witness for C3 (amended) at a concrete row with email "foo@bar.com". -/
theorem email_check_amended_witness :
    ((validateUser ⟨some (.vStr "u1"), some (.vStr "Bob"), some (.vStr "foo@bar.com"), none⟩ 1).error
        = some (rowMsg 1 emailReason) ↔
      ¬((jsGet (⟨some (.vStr "u1"), some (.vStr "Bob"), some (.vStr "foo@bar.com"), none⟩ : RawRow).email).truthy = true
        ∧ (jsGet (⟨some (.vStr "u1"), some (.vStr "Bob"), some (.vStr "foo@bar.com"), none⟩ : RawRow).email).typeOf = "string"
        ∧ emailShape (jsGet (⟨some (.vStr "u1"), some (.vStr "Bob"), some (.vStr "foo@bar.com"), none⟩ : RawRow).email).toStr))
    ∧ isValidEmail "foo@bar" = false
    ∧ isValidEmail "foo@bar.com" = true :=
  email_check_amended ⟨some (.vStr "u1"), some (.vStr "Bob"), some (.vStr "foo@bar.com"), none⟩ 1
    (by decide) (by decide) (by decide)

/-! ### Check order and message format (C4) -/

/-- The five checks with their reason strings, in source order. -/
def checkList : List ((RawRow → Bool) × String) :=
  [(isRowEmpty, emptyReason), (userIdBad, userIdReason), (nameBad, nameReason),
   (emailBad, emailReason), (urlBad, urlReason)]

/-- C4: validateUser applies the five checks in the fixed order emptiness,
userId, name, email, profileImageUrl, and the first failing check alone
determines the reported reason (equivalently, the result is read off the
first failing entry of checkList); a row whose present fields are all
null, undefined or empty is reported as an empty row regardless of its
other defects; every error message has the exact shape
`Row (index+2): reason`; and at position 0 the message starts `Row 2: `. -/
theorem validate_order_and_format (r : RawRow) (i : Nat) :
    (validateUser r i =
      match checkList.find? (fun p => p.1 r) with
      | some p => ⟨false, some (rowMsg i p.2)⟩
      | none => ⟨true, none⟩)
    ∧ (isRowEmpty r = true → validateUser r i = ⟨false, some (rowMsg i emptyReason)⟩)
    ∧ (∀ e, (validateUser r i).error = some e →
        ∃ reason, reason ∈ [emptyReason, userIdReason, nameReason, emailReason, urlReason]
          ∧ e = "Row " ++ toString (i + 2) ++ ": " ++ reason)
    ∧ (∀ e, (validateUser r 0).error = some e → ∃ reason, e = "Row 2: " ++ reason) := by
  have hfmt : ∀ reason, rowMsg 0 reason = "Row 2: " ++ reason := by
    intro reason
    show ("Row " ++ toString (0 + 2) ++ ": ") ++ reason = "Row 2: " ++ reason
    rfl
  refine ⟨?_, ?_, ?_, ?_⟩
  · unfold validateUser checkList
    split_ifs with h1 h2 h3 h4 h5 <;> simp_all [List.find?]
  · intro h
    unfold validateUser
    rw [h]
    simp
  · intro e he
    unfold validateUser at he
    split_ifs at he <;> simp at he <;>
      (refine ⟨_, ?_, he.symm⟩; simp)
  · intro e he
    unfold validateUser at he
    split_ifs at he <;> simp at he <;>
      exact ⟨_, he.symm.trans (hfmt _)⟩

/-- Witness for C4 at the all-empty row and index 5. -/
theorem validate_order_and_format_witness :
    validateUser ⟨some (.vStr ""), some .vNull, none, none⟩ 5
        = ⟨false, some (rowMsg 5 emptyReason)⟩
    ∧ (∃ reason,
        reason ∈ [emptyReason, userIdReason, nameReason, emailReason, urlReason]
          ∧ rowMsg 5 emptyReason = "Row " ++ toString (5 + 2) ++ ": " ++ reason) :=
  ⟨(validate_order_and_format ⟨some (.vStr ""), some .vNull, none, none⟩ 5).2.1 (by decide),
   (validate_order_and_format ⟨some (.vStr ""), some .vNull, none, none⟩ 5).2.2.1
     (rowMsg 5 emptyReason) (by decide)⟩

/-! ### URL check (C5) -/

/-- The language of the URL regex `^(https?:\/\/[^\s]+)$`, declaratively:
`http://` or `https://` followed by a non-empty run of non-space
characters. -/
def urlShape (s : String) : Prop :=
  ∃ tail : List Char,
    (s.data = "http://".data ++ tail ∨ s.data = "https://".data ++ tail)
    ∧ tail ≠ [] ∧ tail.all nonSpace = true

theorem isValidUrl_iff (s : String) : isValidUrl s = true ↔ urlShape s := by
  unfold isValidUrl urlShape urlTailOk
  simp only [Bool.or_eq_true, Bool.and_eq_true, beq_iff_eq, Bool.not_eq_true',
    List.isEmpty_eq_false]
  constructor
  · rintro (⟨htake, hne, hall⟩ | ⟨htake, hne, hall⟩)
    · exact ⟨s.data.drop 7,
        Or.inl (by rw [← htake]; exact (List.take_append_drop 7 s.data).symm),
        hne, hall⟩
    · exact ⟨s.data.drop 8,
        Or.inr (by rw [← htake]; exact (List.take_append_drop 8 s.data).symm),
        hne, hall⟩
  · rintro ⟨tail, hor | hor, hne, hall⟩
    · refine Or.inl ⟨?_, ?_, ?_⟩
      · rw [hor]; exact List.take_left' rfl
      · rw [hor]; exact hne
      · rw [hor]; exact hall
    · refine Or.inr ⟨?_, ?_, ?_⟩
      · rw [hor]; exact List.take_left' rfl
      · rw [hor]; exact hne
      · rw [hor]; exact hall

/-- C5: for a row reaching the profileImageUrl check, the check is skipped
(the row is accepted) when the field is absent or falsy; when the field is
truthy the row is accepted exactly when the value matches `http://` or
`https://` followed by one or more non-space characters, and otherwise the
reported reason is the profileImageUrl failure; "ftp://x.com" is
rejected. -/
theorem url_check (r : RawRow) (i : Nat)
    (hne : isRowEmpty r = false) (hu : userIdBad r = false)
    (hn : nameBad r = false) (he : emailBad r = false) :
    ((jsGet r.profileImageUrl).truthy = false → validateUser r i = ⟨true, none⟩)
    ∧ ((jsGet r.profileImageUrl).truthy = true →
        (validateUser r i = ⟨true, none⟩ ↔ urlShape (jsGet r.profileImageUrl).toStr)
        ∧ (validateUser r i ≠ ⟨true, none⟩ →
            (validateUser r i).error = some (rowMsg i urlReason)))
    ∧ isValidUrl "ftp://x.com" = false := by
  refine ⟨?_, ?_, by decide⟩
  · intro hf
    have hurl : urlBad r = false := by simp [urlBad, hf]
    unfold validateUser
    rw [hne, hu, hn, he, hurl]
    simp
  · intro ht
    have hiff : urlBad r = true ↔ isValidUrl (jsGet r.profileImageUrl).toStr = false := by
      simp [urlBad, ht]
    unfold validateUser
    rw [hne, hu, hn, he]
    by_cases hb : urlBad r = true
    · rw [hb]
      have hnshape : ¬urlShape (jsGet r.profileImageUrl).toStr := by
        rw [← isValidUrl_iff]
        rw [hiff.mp hb]
        simp
      simp [hnshape]
    · have hb' : urlBad r = false := by simpa using hb
      rw [hb']
      have hshape : urlShape (jsGet r.profileImageUrl).toStr := by
        rw [← isValidUrl_iff]
        by_contra hcon
        exact hb (hiff.mpr (by simpa using hcon))
      simp [hshape]

/-- Witness for C5 at concrete rows: one with the field absent, one with a
valid https URL. -/
theorem url_check_witness :
    validateUser ⟨some (.vStr "u"), some (.vStr "N"), some (.vStr "a@b.co"), none⟩ 0
        = ⟨true, none⟩
    ∧ (validateUser ⟨some (.vStr "u"), some (.vStr "N"), some (.vStr "a@b.co"),
          some (.vStr "https://img.example.com/p.png")⟩ 0 = ⟨true, none⟩
        ↔ urlShape (jsGet (⟨some (.vStr "u"), some (.vStr "N"), some (.vStr "a@b.co"),
          some (.vStr "https://img.example.com/p.png")⟩ : RawRow).profileImageUrl).toStr)
    ∧ isValidUrl "ftp://x.com" = false :=
  ⟨(url_check ⟨some (.vStr "u"), some (.vStr "N"), some (.vStr "a@b.co"), none⟩ 0
      (by decide) (by decide) (by decide) (by decide)).1 (by decide),
   ((url_check ⟨some (.vStr "u"), some (.vStr "N"), some (.vStr "a@b.co"),
        some (.vStr "https://img.example.com/p.png")⟩ 0
      (by decide) (by decide) (by decide) (by decide)).2.1 (by decide)).1,
   (url_check ⟨some (.vStr "u"), some (.vStr "N"), some (.vStr "a@b.co"), none⟩ 1
      (by decide) (by decide) (by decide) (by decide)).2.2⟩

/-! ### Validation stage outcomes (C6) -/

theorem collect_aux :
    ∀ (rows : List RawRow) (k : Nat) (acc : List RawRow × List String),
      reduceIdxAux filterStep k acc rows
        = (acc.1 ++ validFilter k rows, acc.2 ++ errList k rows) := by
  intro rows
  induction rows with
  | nil => intro k acc; simp [reduceIdxAux, validFilter, errList]
  | cons u rest ih =>
    intro k acc
    simp only [reduceIdxAux]
    by_cases hv : (validateUser u k).valid = true
    · have herr : (validateUser u k).error = none := (valid_iff_error_none u k).mp hv
      rw [ih]
      simp [filterStep, validFilter, errList, hv, herr]
    · have hv' : (validateUser u k).valid = false := by simpa using hv
      obtain ⟨e, he⟩ : ∃ e, (validateUser u k).error = some e := by
        cases herr : (validateUser u k).error with
        | none => exact absurd ((valid_iff_error_none u k).mpr herr) hv
        | some e => exact ⟨e, rfl⟩
      rw [ih]
      simp [filterStep, validFilter, errList, hv', he]

theorem validFilter_errList_length :
    ∀ (rows : List RawRow) (k : Nat),
      (validFilter k rows).length + (errList k rows).length = rows.length := by
  intro rows
  induction rows with
  | nil => intro k; simp [validFilter, errList]
  | cons u rest ih =>
    intro k
    have hlen := ih (k + 1)
    by_cases hv : (validateUser u k).valid = true
    · have herr : (validateUser u k).error = none := (valid_iff_error_none u k).mp hv
      simp [validFilter, errList, hv, herr]
      omega
    · have hv' : (validateUser u k).valid = false := by simpa using hv
      obtain ⟨e, he⟩ : ∃ e, (validateUser u k).error = some e := by
        cases herr : (validateUser u k).error with
        | none => exact absurd ((valid_iff_error_none u k).mpr herr) hv
        | some e => exact ⟨e, rfl⟩
      simp [validFilter, errList, hv', he]
      omega

/-- C6: the validation stage produces exactly one outcome per input row:
the valid-user list is the order-preserving selection of the rows that
validate, the error list is the order-preserving collection of the
diagnostics of the rows that do not, and their lengths sum to the number
of rows read (so no row contributes to both). -/
theorem validation_outcomes (jsonData : List RawRow) :
    collectValid jsonData = (validFilter 0 jsonData, errList 0 jsonData)
    ∧ (collectValid jsonData).1.length + (collectValid jsonData).2.length
        = jsonData.length := by
  have h := collect_aux jsonData 0 ([], [])
  constructor
  · simpa [collectValid, jsReduceIdx] using h
  · have h1 : collectValid jsonData = (validFilter 0 jsonData, errList 0 jsonData) := by
      simpa [collectValid, jsReduceIdx] using h
    rw [h1]
    exact validFilter_errList_length jsonData 0

/-! ### Sequential batch writes (C9) -/

/-- C9: batch writes are issued strictly sequentially in batch order; if
the write of the batch at position k throws (and the earlier ones
succeed), then exactly the batches 0..k have been issued — the earlier
ones are not rolled back and the later ones are never issued — and the
error propagates. -/
theorem batch_writes_sequential (send : String → List WriteItem → Except String Unit) :
    ∀ (batches : List (List WriteItem)) (k : Nat) (e : String),
      k < batches.length →
      (∀ j, j < k → send TABLE_NAME (batches.getD j []) = .ok ()) →
      send TABLE_NAME (batches.getD k []) = .error e →
      runBatches send batches = (batches.take (k + 1), some e) := by
  intro batches
  induction batches with
  | nil => intro k e hk _ _; simp at hk
  | cons b rest ih =>
    intro k e hk hok hbad
    cases k with
    | zero =>
      simp only [List.getD_cons_zero] at hbad
      simp [runBatches, hbad]
    | succ k =>
      have h0 := hok 0 (by omega)
      simp only [List.getD_cons_zero] at h0
      have hrec := ih k e (by simpa using hk)
        (fun j hj => by simpa using hok (j + 1) (by omega))
        (by simpa using hbad)
      simp only [runBatches, h0, hrec]
      simp [List.take_succ_cons]

/-- A second sample write item. -/
def wItemB : WriteItem :=
  ⟨.vStr "2", .vStr "m", .vStr "f@y.co", .vStr ""⟩

/-- A concrete failing send: throws on the batch containing wItemB. -/
def failSend : String → List WriteItem → Except String Unit :=
  fun _ batch => if batch = [wItemB] then .error "boom" else .ok ()

/-- Witness for C9: three batches, the second send throws; exactly the
first two batches are issued. -/
theorem batch_writes_sequential_witness :
    runBatches failSend [[wItem], [wItemB], [wItem]]
      = ([[wItem], [wItemB]], some "boom") := by
  have h := batch_writes_sequential failSend [[wItem], [wItemB], [wItem]] 1 "boom"
    (by decide)
    (fun j hj => by
      interval_cases j
      rfl)
    (by rfl)
  simpa using h

/-! ### Put-request construction (C10) -/

theorem getD_map_of_lt {α β : Type} (f : α → β) :
    ∀ (l : List α) (j : Nat) (d : β) (dr : α), j < l.length →
      (l.map f).getD j d = f (l.getD j dr) := by
  intro l
  induction l with
  | nil => intro j d dr hj; simp at hj
  | cons x xs ih =>
    intro j d dr hj
    cases j with
    | zero => rfl
    | succ j => simpa [List.getD] using ih j d dr (by simpa using hj)

/-- C10: each put request stores the optional image under the attribute
named profileImage (see the WriteItem structure mirroring the source Item
object — the raw field is profileImageUrl but the attribute is
profileImage); when the row has no profileImageUrl the attribute value is
the empty string rather than being omitted; and userId is always the
string coercion of the row value. -/
theorem put_requests_shape (validUsers : List RawRow) (j : Nat)
    (d : WriteItem) (dr : RawRow) (hj : j < validUsers.length) :
    ((buildPutRequests validUsers).getD j d).userId
        = .vStr (jsGet (validUsers.getD j dr).userId).toStr
    ∧ ((validUsers.getD j dr).profileImageUrl = none →
        ((buildPutRequests validUsers).getD j d).profileImage = .vStr "")
    ∧ (jsNullish (jsGet (validUsers.getD j dr).profileImageUrl) = false →
        ((buildPutRequests validUsers).getD j d).profileImage
          = jsGet (validUsers.getD j dr).profileImageUrl) := by
  have hmap : (buildPutRequests validUsers).getD j d
      = putRequestOf (validUsers.getD j dr) :=
    getD_map_of_lt putRequestOf validUsers j d dr hj
  rw [hmap]
  set u := validUsers.getD j dr with hu
  refine ⟨rfl, ?_, ?_⟩
  · intro habs
    simp [putRequestOf, jsGet, habs]
  · intro hnn
    cases hv : jsGet u.profileImageUrl <;>
      simp [putRequestOf, hv] <;> simp [jsNullish, hv] at hnn

/-- Witness for C10 at a concrete two-row list, index 1. -/
theorem put_requests_shape_witness :
    ((buildPutRequests [⟨some (.vStr "a"), some (.vStr "A"), some (.vStr "a@b.co"), none⟩,
        ⟨some (.vNum 7), some (.vStr "B"), some (.vStr "b@c.co"), none⟩]).getD 1 wItem).userId
      = .vStr (jsGet ((([⟨some (.vStr "a"), some (.vStr "A"), some (.vStr "a@b.co"), none⟩,
        ⟨some (.vNum 7), some (.vStr "B"), some (.vStr "b@c.co"), none⟩] : List RawRow)).getD 1
          ⟨none, none, none, none⟩).userId).toStr
    ∧ ((buildPutRequests [⟨some (.vStr "a"), some (.vStr "A"), some (.vStr "a@b.co"), none⟩,
        ⟨some (.vNum 7), some (.vStr "B"), some (.vStr "b@c.co"), none⟩]).getD 1 wItem).profileImage
      = .vStr "" := by
  have h := put_requests_shape
    [⟨some (.vStr "a"), some (.vStr "A"), some (.vStr "a@b.co"), none⟩,
     ⟨some (.vNum 7), some (.vStr "B"), some (.vStr "b@c.co"), none⟩] 1 wItem
    ⟨none, none, none, none⟩ (by decide)
  exact ⟨h.1, h.2.1 (by decide)⟩

/-! ### Orchestrator branches (C7, C8) -/

/-- C7: when every decoded row fails validation (and at least one row was
read), the handler logs only the generic warning and terminates: the
trace is exactly that one warning, so no DynamoDB send is issued and the
accumulated per-row diagnostics are not emitted, even though the error
list is non-empty. -/
theorem no_valid_rows_branch {σ : Type} (env : Env σ) (event : S3Event)
    (record : S3EventRecord) (key : String) (buffer : List Nat)
    (workbook : Workbook σ) (jsonData : List RawRow)
    (h1 : event.records.head? = some record)
    (h2 : jsStrFalsy record.bucketName = false)
    (h3 : jsStrFalsy record.objectKey = false)
    (h4 : env.uriDecode (plusToSpace (record.objectKey.getD "")) = .ok key)
    (h5 : env.getObject (record.bucketName.getD "") key = .ok buffer)
    (h6 : env.readWorkbook buffer = .ok workbook)
    (h7 : workbook.sheetNames.isEmpty = false)
    (h8 : env.sheetToJson (workbook.sheets (workbook.sheetNames.headD "")) = .ok jsonData)
    (h9 : jsonData.isEmpty = false)
    (h10 : (collectValid jsonData).1 = []) :
    handler env event = [.logWarn "No valid records found."]
    ∧ (∀ b, LogEvent.dynamoSend TABLE_NAME b ∉ handler env event)
    ∧ (∀ m items, LogEvent.logWarnList m items ∉ handler env event)
    ∧ (collectValid jsonData).2 ≠ [] := by
  have h7' : workbook.sheetNames ≠ [] := by simpa using h7
  have h9' : jsonData ≠ [] := by simpa using h9
  have h8' := h8
  rw [List.headD_eq_head?] at h8'
  have htry : handlerTry env event = ([.logWarn "No valid records found."], none) := by
    simp [handlerTry, h1, h2, h3, h4, h5, h6, h7', h8', h9', h10]
  have hh : handler env event = [.logWarn "No valid records found."] := by
    unfold handler
    rw [htry]
  refine ⟨hh, ?_, ?_, ?_⟩
  · intro b
    rw [hh]
    simp
  · intro m items
    rw [hh]
    simp
  · have hcv : collectValid jsonData = (validFilter 0 jsonData, errList 0 jsonData) := by
      simpa [collectValid, jsReduceIdx] using collect_aux jsonData 0 ([], [])
    have hsum := validFilter_errList_length jsonData 0
    intro habs
    rw [hcv] at h10 habs
    simp only at h10 habs
    rw [h10, habs] at hsum
    simp only [List.length_nil, Nat.add_zero, Nat.zero_add] at hsum
    exact h9' (List.length_eq_zero.mp hsum.symm)

/-- A row failing validation, used for the C7 witness. -/
def allEmptyRow : RawRow := ⟨some (.vStr ""), none, none, none⟩

/-- A concrete environment whose decode stage yields a single invalid
row. -/
def oneBadRowEnv : Env Unit :=
  { uriDecode := fun s => .ok s
    getObject := fun _ _ => .ok []
    readWorkbook := fun _ => .ok ⟨["Sheet1"], fun _ => ()⟩
    sheetToJson := fun _ => .ok [allEmptyRow]
    send := fun _ _ => .ok () }

/-- Witness for C7 at a concrete environment and event. -/
theorem no_valid_rows_branch_witness :
    handler oneBadRowEnv ⟨[⟨some "b", some "k.xlsx"⟩]⟩
      = [.logWarn "No valid records found."] :=
  (no_valid_rows_branch oneBadRowEnv ⟨[⟨some "b", some "k.xlsx"⟩]⟩
    ⟨some "b", some "k.xlsx"⟩ (plusToSpace "k.xlsx") [] ⟨["Sheet1"], fun _ => ()⟩
    [allEmptyRow] rfl rfl rfl rfl rfl rfl rfl rfl rfl (by decide)).1

/-- C8: for every trigger event and every behavior of the collaborators
(including any of them throwing), the handler returns normally: either the
try body finished and its trace is returned unchanged, or the body threw
and the single top-level catch appends the failure log — no exception
escapes. -/
theorem handler_always_returns {σ : Type} (env : Env σ) (event : S3Event) :
    (∃ t, handlerTry env event = (t, none) ∧ handler env event = t)
    ∨ (∃ t e, handlerTry env event = (t, some e) ∧
        handler env event = t ++ [.logErrorWith "Lambda failed:" e]) := by
  rcases htry : handlerTry env event with ⟨t, oe⟩
  cases oe with
  | none =>
    refine Or.inl ⟨t, rfl, ?_⟩
    unfold handler
    rw [htry]
  | some e =>
    refine Or.inr ⟨t, e, rfl, ?_⟩
    unfold handler
    rw [htry]

end S3Lambda
